import Mathlib

/-!
Verification of the analysis core of the SimpleEQ audio equalizer
(Source/PluginEditor.cpp), as a shallow embedding in Lean 4.

Conventions of the embedding:
* audio samples are modelled polymorphically (any type `α`); concrete
  evaluations use `ℕ` or `ℚ`;
* floating point arithmetic is modelled by `ℚ` (exact pixel/d B mapping
  arithmetic) or `ℝ` (logarithms, trigonometry of the filter responses);
* a C++ operation whose execution would be undefined behaviour (a
  negative-length `memcpy`) is modelled as `Option.none`;
* the atomic flag of the change coalescer is modelled by explicit state
  passing, since producer and consumer interleave at the granularity of
  whole calls.
-/

namespace SimpleEQ

/-! ### Sliding Window Assembler (PathProducer::process, lines 225-240)

The incoming block is appended at the tail of `monoBuffer` after the
existing contents are shifted left by the block size:

    size = tempIncomingBuffer.getNumSamples()
    copy(monoBuffer[0..], monoBuffer[size..], monoBuffer.numSamples - size)
    copy(monoBuffer[numSamples - size..], tempIncomingBuffer[0..], size)

When `size` exceeds `monoBuffer.getNumSamples()` the first copy length
`monoBuffer.getNumSamples() - size` is negative; `FloatVectorOperations::copy`
forwards it to `memcpy` after a cast to `size_t`, an out-of-bounds access.
The embedding returns `none` in that case.  -/

/-- The (possibly negative) length passed to the first
`FloatVectorOperations::copy`: `monoBuffer.getNumSamples() - size`. -/
def shiftCopyLen (window block : List α) : Int :=
  (window.length : Int) - (block.length : Int)

/-- One ingest step of the sliding window assembler: shift the window left
by the block size and copy the block into the freed tail region.  `none`
models the out-of-bounds copy that a block larger than the window causes. -/
def ingestBlock (window block : List α) : Option (List α) :=
  if block.length ≤ window.length then
    some (window.drop block.length ++ block)
  else
    none

/-- The `while (getNumCompleteBuffersAvailable() > 0)` loop: ingest each
drained block in order, propagating failure. -/
def ingestAll (window : List α) : List (List α) → Option (List α)
  | [] => some window
  | b :: bs =>
    match ingestBlock window b with
    | some w => ingestAll w bs
    | none => none

/-- The last `n` elements of a list (the window contents the spec talks
about). -/
def takeLast (n : ℕ) (l : List α) : List α :=
  l.drop (l.length - n)

/-! ### Change Coalescer (lines 216-219 and 264-281)

`parameterValueChanged` sets the `juce::Atomic<bool> parametersChanged`
flag; `timerCallback` runs `parametersChanged.compareAndSetBool(false, true)`
once per tick and calls `updateChain()` exactly once when the exchange
succeeds.  The state records the flag and the number of `updateChain`
calls. -/

structure CoalescerState where
  flag : Bool
  recomputes : ℕ
  deriving DecidableEq, Repr

/-- `ResponseCurveComponent::parameterValueChanged`: sets the shared flag
(idempotent; the changed parameter index is ignored). -/
def parameterValueChanged (s : CoalescerState) : CoalescerState :=
  { s with flag := true }

/-- The coalescing part of `ResponseCurveComponent::timerCallback`:
`compareAndSetBool(false, true)` atomically clears the flag when it was
set, and `updateChain()` runs exactly when the exchange succeeded. -/
def timerCallback (s : CoalescerState) : CoalescerState :=
  if s.flag then { flag := false, recomputes := s.recomputes + 1 } else s

/-! ### Filter stages and the response-curve magnitude loop
(ResponseCurveComponent::paint, lines 304-345)

A stage is a second-order filter section as `paint` sees it: a bypass
flag plus its magnitude response (`coefficients->getMagnitudeForFrequency`
is kept abstract as a real function of frequency). -/

structure Stage where
  bypassed : Bool
  magAt : ℝ → ℝ

/-- `monoChain` as read by `paint`: the peak stage (its bypass flag is
`monoChain.isBypassed<ChainPositions::Peak>()`), four low-cut stages and
four high-cut stages. -/
structure MonoChain where
  peak : Stage
  loCut : Fin 4 → Stage
  hiCut : Fin 4 → Stage

/-- `juce::mapToLog10(value0To1, logRangeMin, logRangeMax)`:
`pow(10, value0To1 * (log10(max) - log10(min)) + log10(min))`. -/
noncomputable def mapToLog10 (value0To1 logRangeMin logRangeMax : ℝ) : ℝ :=
  (10 : ℝ) ^ (value0To1 * (Real.logb 10 logRangeMax - Real.logb 10 logRangeMin)
    + Real.logb 10 logRangeMin)

/-- `juce::Decibels::gainToDecibels` with the default −100 dB floor:
`gain > 0 ? max(-100, 20*log10(gain)) : -100`. -/
noncomputable def gainToDecibels (gain : ℝ) : ℝ :=
  if 0 < gain then max (-100) (20 * Real.logb 10 gain) else -100

/-- The body of the magnitude loop in `paint` (lines 320-343): starting
from `mag = 1`, multiply in each stage's magnitude at `freq` guarded by
its bypass flag, in source order (peak, loCut 0-3, hiCut 0-3). -/
noncomputable def paintMag (ch : MonoChain) (freq : ℝ) : ℝ :=
  let m0 : ℝ := 1
  let m1 := if !ch.peak.bypassed then m0 * ch.peak.magAt freq else m0
  let m2 := if !(ch.loCut 0).bypassed then m1 * (ch.loCut 0).magAt freq else m1
  let m3 := if !(ch.loCut 1).bypassed then m2 * (ch.loCut 1).magAt freq else m2
  let m4 := if !(ch.loCut 2).bypassed then m3 * (ch.loCut 2).magAt freq else m3
  let m5 := if !(ch.loCut 3).bypassed then m4 * (ch.loCut 3).magAt freq else m4
  let m6 := if !(ch.hiCut 0).bypassed then m5 * (ch.hiCut 0).magAt freq else m5
  let m7 := if !(ch.hiCut 1).bypassed then m6 * (ch.hiCut 1).magAt freq else m6
  let m8 := if !(ch.hiCut 2).bypassed then m7 * (ch.hiCut 2).magAt freq else m7
  let m9 := if !(ch.hiCut 3).bypassed then m8 * (ch.hiCut 3).magAt freq else m8
  m9

/-- `mags[i]` of `paint`: the loop body at
`freq = mapToLog10(i / w, 20, 20000)`, converted to decibels. -/
noncomputable def paintMagsAt (ch : MonoChain) (w i : ℕ) : ℝ :=
  gainToDecibels (paintMag ch (mapToLog10 ((i : ℝ) / (w : ℝ)) 20 20000))

/-- All nine stages of the chain in source order (`paint` reads
`loCut.get<0>() .. get<3>()` and `hiCut.get<0>() .. get<3>()`). -/
def chainStages (ch : MonoChain) : List Stage :=
  [ch.peak,
   ch.loCut 0, ch.loCut 1, ch.loCut 2, ch.loCut 3,
   ch.hiCut 0, ch.hiCut 1, ch.hiCut 2, ch.hiCut 3]

/-- The spec's description of the rendered response value: the product,
over every non-bypassed stage, of that stage's magnitude at the
log-interpolated frequency, converted to decibels. -/
noncomputable def specResponseAt (ch : MonoChain) (w i : ℕ) : ℝ :=
  gainToDecibels
    ((((chainStages ch).filter fun s => !s.bypassed).map
      fun s => s.magAt (mapToLog10 ((i : ℝ) / (w : ℝ)) 20 20000)).prod)

/-! ### Cut filter activation (ResponseCurveComponent::updateChain calls
`updateCutFilter(monoChain.get<LoCut>(), coefficients, slope)`). -/

/-- Modelled from the spec: `updateCutFilter` (declared in
PluginProcessor.h, not under src/) installs the cascade's coefficient
sets and sets the bypass flags so that the number of active sections
equals `slopeDbPerOctave / 12`; inactive sections are present in the
array but flagged bypassed rather than removed. -/
noncomputable def updateCutFilter (coefs : Fin 4 → (ℝ → ℝ)) (slope : ℕ) : Fin 4 → Stage :=
  fun k => { bypassed := if (k : ℕ) < slope / 12 then false else true
             magAt := coefs k }

/-- Number of non-bypassed stages of a cut cascade. -/
def activeCount (st : Fin 4 → Stage) : ℕ :=
  (([st 0, st 1, st 2, st 3]).filter fun s => !s.bypassed).length

/-- The cascade's contribution to the rendered response: each bypassed
stage contributes a neutral factor 1, as in the `paint` loop. -/
noncomputable def cutCascadeMag (st : Fin 4 → Stage) (f : ℝ) : ℝ :=
  (([st 0, st 1, st 2, st 3]).map fun s => if !s.bypassed then s.magAt f else 1).prod

/-! ### Block Transfer Queue -/

/-- Modelled from the spec: the fixed-capacity single-producer /
single-consumer `Fifo` (declared in PluginProcessor.h, not under src/).
`buf` lists the queued blocks oldest first; `capacity` is the ring size. -/
structure Fifo (α : Type u) where
  capacity : ℕ
  buf : List α
  deriving DecidableEq, Repr

/-- Modelled from the spec: `push(block) -> bool` copies the block into
the next free ring slot and returns true; when the ring is full it
returns false, drops nothing already queued, and the incoming block is
lost.  It never blocks and never allocates. -/
def Fifo.push (q : Fifo α) (a : α) : Fifo α × Bool :=
  if q.buf.length < q.capacity then ({ q with buf := q.buf ++ [a] }, true)
  else (q, false)

/-- Modelled from the spec: `pop() -> optional<Block>` drains oldest
first; `none` when empty. -/
def Fifo.pop (q : Fifo α) : Fifo α × Option α :=
  match q.buf with
  | [] => (q, none)
  | x :: xs => ({ q with buf := xs }, some x)

/-- A sequence of pushes with no intervening pops. -/
def pushAll (q : Fifo α) : List α → Fifo α
  | [] => q
  | x :: xs => pushAll (q.push x).1 xs

/-- Pop up to `n` blocks, oldest first, in order. -/
def drainN : ℕ → Fifo α → List α
  | 0, _ => []
  | n + 1, q =>
    match q.pop with
    | (_, none) => []
    | (q2, some x) => x :: drainN n q2

/-! ### FFT-result consumption (PathProducer::process, lines 242-261)

The first `while` loop pops every available FFT data block and calls
`generatePath` on each, queueing one path per block; the second `while`
loop pops every queued path, each pop overwriting `leftChannelFFTPath`. -/

/-- The FFT-block drain loop: `generatePath` runs once per popped block;
the result is the list of generated paths in production order. -/
def processFFTQueue (gen : β → γ) (blocks : List β) : List γ :=
  blocks.map gen

/-- The path drain loop: each `getPath` overwrites the displayed path, so
the last queued path (or the previous one, when none is queued) wins. -/
def drainPaths (current : γ) (paths : List γ) : γ :=
  paths.foldl (fun _ p => p) current

/-- Both loops of `PathProducer::process` after the window/FFT stage:
returns the displayed path and the number of `generatePath` invocations. -/
def processAndDisplay (gen : β → γ) (blocks : List β) (current : γ) : γ × ℕ :=
  ((drainPaths current (processFFTQueue gen blocks)), (processFFTQueue gen blocks).length)

/-! ### Response-curve vertical mapping (paint, lines 349-356) -/

/-- `juce::jmap(sourceValue, sourceMin, sourceMax, targetMin, targetMax)`. -/
def jmap (v s0 s1 t0 t1 : ℚ) : ℚ :=
  t0 + (t1 - t0) * (v - s0) / (s1 - s0)

/-- The `map` lambda of `paint`: `jmap(input, -24.0, 24.0, outputMin,
outputMax)` with `outputMin = responseArea.getBottom()` and
`outputMax = responseArea.getY()`. -/
def responseCurveMap (bottom top v : ℚ) : ℚ :=
  jmap v (-24) 24 bottom top

/-! ### Peak filter design -/

/-- A biquad coefficient set (b0, b1, b2 numerator; a0, a1, a2
denominator). -/
structure BiquadCoefs where
  b0 : ℝ
  b1 : ℝ
  b2 : ℝ
  a0 : ℝ
  a1 : ℝ
  a2 : ℝ

/-- Modelled from the spec: `makePeakFilter` (PluginProcessor, not under
src/) — the standard biquad peaking-EQ design from center frequency,
linear gain `10^(gainDb/20)` and Q, with `A = sqrt(linearGain)`,
`omega = 2*pi*freq/sampleRate`, `alpha = sin(omega)/(2*Q)`. -/
noncomputable def makePeakFilter (sampleRate freq q gainDb : ℝ) : BiquadCoefs :=
  let ω := 2 * Real.pi * freq / sampleRate
  let A := Real.sqrt ((10 : ℝ) ^ (gainDb / 20))
  let α := Real.sin ω / (2 * q)
  { b0 := 1 + α * A
    b1 := -2 * Real.cos ω
    b2 := 1 - α * A
    a0 := 1 + α / A
    a1 := -2 * Real.cos ω
    a2 := 1 - α / A }

/-- Squared modulus of the numerator of the transfer function evaluated
at `z = e^(j θ)`. -/
noncomputable def biquadNumSq (c : BiquadCoefs) (θ : ℝ) : ℝ :=
  (c.b0 + c.b1 * Real.cos θ + c.b2 * Real.cos (2 * θ)) ^ 2
    + (c.b1 * Real.sin θ + c.b2 * Real.sin (2 * θ)) ^ 2

/-- Squared modulus of the denominator of the transfer function evaluated
at `z = e^(j θ)`. -/
noncomputable def biquadDenSq (c : BiquadCoefs) (θ : ℝ) : ℝ :=
  (c.a0 + c.a1 * Real.cos θ + c.a2 * Real.cos (2 * θ)) ^ 2
    + (c.a1 * Real.sin θ + c.a2 * Real.sin (2 * θ)) ^ 2

/-- Squared magnitude response at evaluation angle `θ` (the standard
transfer-function evaluation at `z = e^(j θ)`). -/
noncomputable def biquadMagSq (c : BiquadCoefs) (θ : ℝ) : ℝ :=
  biquadNumSq c θ / biquadDenSq c θ

/-- Magnitude response in decibels: `20*log10(|H|) = 10*log10(|H|^2)`. -/
noncomputable def biquadResponseDb (c : BiquadCoefs) (θ : ℝ) : ℝ :=
  10 * Real.logb 10 (biquadMagSq c θ)

/-! ### Slider display string (RotarySliderWithLabels::getDisplayString,
lines 147-181)

`render v d` stands for `juce::String(v, d)` — the value printed with
`d` decimal places — kept abstract. -/

/-- The float-parameter branch of `getDisplayString`: divide by 1000 and
remember `addK` when the value exceeds 999, print with 2 decimal places
exactly when divided, then append `" "`, a `"k"` only when `addK`, and
the suffix, all only when the suffix is non-empty. -/
def getDisplayString (render : ℚ → ℕ → String) (value : ℚ) (suffix : String) :
    String :=
  let vk := if 999 < value then (value / 1000, true) else (value, false)
  let str := render vk.1 (if vk.2 then 2 else 0)
  if suffix.isEmpty then str
  else str ++ " " ++ (if vk.2 then "k" else "") ++ suffix

/-- The claim's description of the display string, case by case. -/
def displayStringSpec (render : ℚ → ℕ → String) (value : ℚ) (suffix : String) :
    String :=
  if 999 < value then
    if suffix.isEmpty then render (value / 1000) 2
    else render (value / 1000) 2 ++ " " ++ "k" ++ suffix
  else
    if suffix.isEmpty then render value 0
    else render value 0 ++ " " ++ suffix

end SimpleEQ

namespace SimpleEQ

/-! Helper lemmas about `takeLast` and the ingest step. -/

theorem takeLast_of_length_le (n : ℕ) (l : List α) (h : l.length ≤ n) :
    takeLast n l = l := by
  simp [takeLast, Nat.sub_eq_zero_of_le h]

theorem takeLast_append_left (n : ℕ) (p z : List α) (h : n ≤ z.length) :
    takeLast n (p ++ z) = takeLast n z := by
  unfold takeLast
  rw [List.drop_append_eq_append_drop]
  rw [List.drop_eq_nil_of_le (by simp; omega)]
  simp only [List.nil_append, List.length_append]
  congr 1
  omega

theorem ingestBlock_eq_takeLast (window block : List α)
    (h : block.length ≤ window.length) :
    ingestBlock window block =
      some (takeLast window.length (window ++ block)) := by
  unfold ingestBlock takeLast
  rw [if_pos h]
  have h1 : (window ++ block).length - window.length = block.length := by
    simp
  rw [h1, List.drop_append_of_le_length h]

theorem ingestBlock_length (window block w : List α)
    (h : ingestBlock window block = some w) : w.length = window.length := by
  unfold ingestBlock at h
  by_cases hle : block.length ≤ window.length
  · rw [if_pos hle] at h
    cases h
    simp [Nat.sub_add_cancel hle]
  · rw [if_neg hle] at h
    cases h

theorem ingestAll_eq_takeLast (bs : List (List α)) :
    ∀ window : List α, (∀ b ∈ bs, b.length ≤ window.length) →
      ingestAll window bs = some (takeLast window.length (window ++ bs.flatten)) := by
  induction bs with
  | nil =>
    intro window _
    simp [ingestAll, takeLast_of_length_le]
  | cons b bs ih =>
    intro window hlen
    have hb : b.length ≤ window.length := hlen b (by simp)
    have hstep := ingestBlock_eq_takeLast window b hb
    unfold ingestAll
    rw [hstep]
    show ingestAll (takeLast window.length (window ++ b)) bs =
      some (takeLast window.length (window ++ (b :: bs).flatten))
    have hw : (takeLast window.length (window ++ b)).length = window.length := by
      have := ingestBlock_eq_takeLast window b hb
      exact ingestBlock_length window b _ this
    rw [ih _ (by intro x hx; rw [hw]; exact hlen x (by simp [hx]))]
    rw [hw]
    congr 1
    have hsplit : window ++ b = window.take b.length ++ takeLast window.length (window ++ b) := by
      unfold takeLast
      have h1 : (window ++ b).length - window.length = b.length := by simp
      rw [h1, List.drop_append_of_le_length hb]
      rw [← List.append_assoc, List.take_append_drop]
    have hlong : window.length ≤
        (takeLast window.length (window ++ b) ++ bs.flatten).length := by
      rw [List.length_append, hw]
      omega
    calc takeLast window.length (takeLast window.length (window ++ b) ++ bs.flatten)
        = takeLast window.length
            (window.take b.length ++ (takeLast window.length (window ++ b) ++ bs.flatten)) :=
          (takeLast_append_left window.length (window.take b.length) _ hlong).symm
      _ = takeLast window.length ((window ++ b) ++ bs.flatten) := by
          rw [← List.append_assoc, ← hsplit]
      _ = _ := by simp

/-- C1 (amended): provided every ingested block is no longer than the
window, once the total sample count reaches the window length the
window's content is exactly the last `windowLength` samples pushed,
independent of how the samples were split into blocks (the result
depends on `bs` only through `bs.flatten`). -/
theorem slidingWindow_chunk_independent (window : List α) (bs : List (List α))
    (hblocks : ∀ b ∈ bs, b.length ≤ window.length)
    (htotal : window.length ≤ bs.flatten.length) :
    ingestAll window bs = some (takeLast window.length bs.flatten) := by
  rw [ingestAll_eq_takeLast bs window hblocks]
  exact congrArg some (takeLast_append_left window.length window bs.flatten htotal)

/-- C1 witness: a concrete run of the sliding window assembler. -/
theorem slidingWindow_chunk_independent_witness :
    ingestAll ([5, 6] : List ℕ) [[1], [2], [3]] =
      some (takeLast ([5, 6] : List ℕ).length ([[1], [2], [3]] : List (List ℕ)).flatten) :=
  slidingWindow_chunk_independent [5, 6] [[1], [2], [3]] (by decide) (by decide)

/-- C1 counterexample: a single block longer than the window has total
sample count ≥ window length, yet the ingest does not leave the window
holding the last `windowLength` samples — the copy length is negative
and the operation has no defined result. -/
theorem slidingWindow_oversize_counterexample :
    (([0, 0] : List ℕ).length ≤ ([[1, 2, 3]] : List (List ℕ)).flatten.length) ∧
    ingestAll ([0, 0] : List ℕ) [[1, 2, 3]] ≠
      some (takeLast ([0, 0] : List ℕ).length ([[1, 2, 3]] : List (List ℕ)).flatten) := by
  decide

/-- C3: a block larger than the window is not handled by keeping its last
`windowLength` samples; the length passed to the first
`FloatVectorOperations::copy` is negative and the ingest has no defined
result (out-of-bounds copy), contradicting the claim. -/
theorem ingest_oversizeBlock_bug :
    ingestBlock ([0, 0] : List ℕ) [1, 2, 3] = none ∧
    shiftCopyLen ([0, 0] : List ℕ) [1, 2, 3] < 0 := by
  decide

theorem iterate_parameterValueChanged (n : ℕ) (s : CoalescerState) :
    parameterValueChanged^[n + 1] s =
      { flag := true, recomputes := s.recomputes } := by
  induction n with
  | zero => rfl
  | succ n ih =>
    rw [Function.iterate_succ_apply', ih]
    rfl

/-- C2: if `n ≥ 1` parameter-change notifications arrive between two
ticks, the next tick clears the flag and performs exactly one
recomputation; a tick with no intervening notification (flag still
false) performs none and leaves the state unchanged. -/
theorem changeCoalescer_tick (n : ℕ) (s : CoalescerState) :
    (1 ≤ n →
      timerCallback (parameterValueChanged^[n] s) =
        { flag := false, recomputes := s.recomputes + 1 }) ∧
    (s.flag = false → timerCallback s = s) := by
  constructor
  · intro hn
    obtain ⟨m, rfl⟩ : ∃ m, n = m + 1 := ⟨n - 1, by omega⟩
    rw [iterate_parameterValueChanged]
    rfl
  · intro hf
    unfold timerCallback
    rw [hf]
    simp

/-- C2 witness: three notifications then a tick yield one recomputation;
a tick on a clear flag is a no-op. -/
theorem changeCoalescer_tick_witness :
    timerCallback (parameterValueChanged^[3] { flag := false, recomputes := 0 }) =
      { flag := false, recomputes := 1 } ∧
    timerCallback { flag := false, recomputes := 0 } =
      { flag := false, recomputes := 0 } :=
  ⟨(changeCoalescer_tick 3 { flag := false, recomputes := 0 }).1 (by decide),
   (changeCoalescer_tick 3 { flag := false, recomputes := 0 }).2 rfl⟩

theorem foldl_bypass_prod (f : Stage → ℝ) (l : List Stage) :
    ∀ m : ℝ, l.foldl (fun m s => if !s.bypassed then m * f s else m) m
      = m * ((l.filter fun s => !s.bypassed).map f).prod := by
  induction l with
  | nil => intro m; simp
  | cons s l ih =>
    intro m
    rw [List.foldl_cons, List.filter_cons]
    show l.foldl _ (if (!s.bypassed) = true then m * f s else m)
      = m * ((if (!s.bypassed) = true then s :: l.filter (fun s => !s.bypassed)
              else l.filter (fun s => !s.bypassed)).map f).prod
    by_cases hb : (!s.bypassed) = true
    · rw [if_pos hb, if_pos hb, ih, List.map_cons, List.prod_cons, mul_assoc]
    · rw [if_neg hb, if_neg hb, ih]

theorem paintMag_eq_foldl (ch : MonoChain) (freq : ℝ) :
    paintMag ch freq = (chainStages ch).foldl
      (fun m s => if !s.bypassed then m * s.magAt freq else m) 1 :=
  rfl

/-- C4: for every pixel column `i` of the response area, the rendered
response value of `paint` equals the product, over every non-bypassed
stage among the peak stage, the four low-cut stages and the four
high-cut stages, of that stage's magnitude at the frequency obtained by
logarithmic interpolation of `i / w` between 20 Hz and 20000 Hz, the
product then converted to decibels. -/
theorem responseCurve_product (ch : MonoChain) (w i : ℕ) :
    paintMagsAt ch w i = specResponseAt ch w i := by
  unfold paintMagsAt specResponseAt
  rw [paintMag_eq_foldl, foldl_bypass_prod, one_mul]

/-- C6: for a cut filter updated with slope `s ∈ {12, 24, 36, 48}`
dB/octave, exactly `s / 12` of the 4 stages are non-bypassed; the
remaining stages are present but bypassed and contribute a neutral unit
factor, so the cascade's magnitude is the product of the first `s / 12`
stage magnitudes alone. -/
theorem cutFilter_slope_stages (coefs : Fin 4 → (ℝ → ℝ)) (slope : ℕ) (f : ℝ)
    (hs : slope = 12 ∨ slope = 24 ∨ slope = 36 ∨ slope = 48) :
    activeCount (updateCutFilter coefs slope) = slope / 12 ∧
    cutCascadeMag (updateCutFilter coefs slope) f =
      (([coefs 0, coefs 1, coefs 2, coefs 3].take (slope / 12)).map
        fun g => g f).prod := by
  rcases hs with rfl | rfl | rfl | rfl <;>
    exact ⟨by simp [activeCount, updateCutFilter,
                    show ((3 : Fin 4) : ℕ) = 3 from rfl],
           by simp [cutCascadeMag, updateCutFilter,
                    show ((3 : Fin 4) : ℕ) = 3 from rfl]⟩

/-- C6 witness: slope 12 activates exactly 1 of 4 stages. -/
theorem cutFilter_slope_stages_witness :
    ((12 : ℕ) = 12 ∨ (12 : ℕ) = 24 ∨ (12 : ℕ) = 36 ∨ (12 : ℕ) = 48) ∧
    (activeCount (updateCutFilter (fun _ _ => 2) 12) = 12 / 12 ∧
     cutCascadeMag (updateCutFilter (fun _ _ => 2) 12) 0 =
       ((([fun _ => 2, fun _ => 2, fun _ => 2, fun _ => 2] :
           List (ℝ → ℝ)).take (12 / 12)).map fun g => g 0).prod) :=
  ⟨Or.inl rfl, cutFilter_slope_stages (fun _ _ => 2) 12 0 (Or.inl rfl)⟩

theorem pushAll_of_full (xs : List α) :
    ∀ q : Fifo α, q.buf.length = q.capacity → pushAll q xs = q := by
  induction xs with
  | nil => intro q _; rfl
  | cons x xs ih =>
    intro q h
    unfold pushAll Fifo.push
    rw [if_neg (by omega)]
    exact ih q h

theorem pushAll_capacity (xs : List α) :
    ∀ q : Fifo α, (pushAll q xs).capacity = q.capacity := by
  induction xs with
  | nil => intro q; rfl
  | cons x xs ih =>
    intro q
    unfold pushAll Fifo.push
    by_cases hfull : q.buf.length < q.capacity
    · rw [if_pos hfull]; exact ih _
    · rw [if_neg hfull]; exact ih _

theorem pushAll_buf (xs : List α) :
    ∀ q : Fifo α, q.buf.length ≤ q.capacity →
      (pushAll q xs).buf = (q.buf ++ xs).take q.capacity := by
  induction xs with
  | nil =>
    intro q h
    simp [pushAll, List.take_of_length_le h]
  | cons x xs ih =>
    intro q h
    unfold pushAll Fifo.push
    by_cases hfull : q.buf.length < q.capacity
    · rw [if_pos hfull]
      have := ih { q with buf := q.buf ++ [x] } (by simp; omega)
      simp only at this
      rw [this]
      simp
    · rw [if_neg hfull]
      have hq : q.buf.length = q.capacity := by omega
      rw [pushAll_of_full xs q hq, ← hq, List.take_left]

theorem drainN_eq_take (n : ℕ) :
    ∀ q : Fifo α, drainN n q = q.buf.take n := by
  induction n with
  | zero => intro q; rfl
  | succ n ih =>
    intro q
    unfold drainN Fifo.pop
    cases hb : q.buf with
    | nil => simp
    | cons x xs => simp [ih]

/-- C5 (amended): `push` returns false and changes nothing when the ring
is full (the incoming block, not anything already queued, is dropped);
consequently after `N` pushes with no intervening pops where `N` exceeds
the capacity, exactly the first `capacity` blocks pushed (the oldest
ones, not the most recent) are retrievable by pop in oldest-first
order. -/
theorem fifo_push_drop_newest (cap : ℕ) (xs : List α) (hcap : cap < xs.length) :
    (∀ (q : Fifo α) (a : α), q.buf.length = q.capacity → q.push a = (q, false)) ∧
    (pushAll { capacity := cap, buf := [] } xs).buf = xs.take cap ∧
    (pushAll { capacity := cap, buf := ([] : List α) } xs).buf.length = cap ∧
    drainN cap (pushAll { capacity := cap, buf := ([] : List α) } xs) =
      xs.take cap := by
  have hbuf := pushAll_buf xs { capacity := cap, buf := ([] : List α) } (by simp)
  simp only [List.nil_append] at hbuf
  refine ⟨?_, hbuf, ?_, ?_⟩
  · intro q a h
    unfold Fifo.push
    rw [if_neg (by omega)]
  · rw [hbuf]
    simp
    omega
  · rw [drainN_eq_take, hbuf, List.take_take, min_self]

/-- C5 witness: capacity 2, three pushes. -/
theorem fifo_push_drop_newest_witness :
    2 < ([1, 2, 3] : List ℕ).length ∧
    ((∀ (q : Fifo ℕ) (a : ℕ), q.buf.length = q.capacity → q.push a = (q, false)) ∧
     (pushAll { capacity := 2, buf := [] } [1, 2, 3]).buf = [1, 2, 3].take 2 ∧
     (pushAll { capacity := 2, buf := ([] : List ℕ) } [1, 2, 3]).buf.length = 2 ∧
     drainN 2 (pushAll { capacity := 2, buf := ([] : List ℕ) } [1, 2, 3]) =
       [1, 2, 3].take 2) :=
  ⟨by decide, fifo_push_drop_newest 2 [1, 2, 3] (by decide)⟩

/-- C5 counterexample: with capacity 2 and pushes 1, 2, 3 the retrievable
blocks are the two oldest `[1, 2]`, not the two most recent `[2, 3]`;
the claim's "capacity most-recent blocks are retrievable" fails. -/
theorem fifo_mostRecent_counterexample :
    2 < ([1, 2, 3] : List ℕ).length ∧
    drainN 2 (pushAll { capacity := 2, buf := ([] : List ℕ) } [1, 2, 3]) = [1, 2] ∧
    drainN 2 (pushAll { capacity := 2, buf := ([] : List ℕ) } [1, 2, 3]) ≠
      takeLast 2 [1, 2, 3] := by
  decide

theorem foldl_overwrite (l : List γ) :
    ∀ c : γ, l.foldl (fun _ p => p) c = l.getLastD c := by
  induction l with
  | nil => intro c; rfl
  | cons x l ih => intro c; rw [List.foldl_cons, List.getLastD_cons]; exact ih x

/-- C7 (amended): the consumer drains the FFT-result queue completely and
`generatePath` runs once per popped block (older blocks are processed,
not skipped); the displayed path is then the one generated from the
newest block, because the path-queue drain keeps only the most recent
path — staleness wins only at the display step. -/
theorem process_drains_to_newest (gen : β → γ) (blocks : List β) (current : γ) :
    processAndDisplay gen blocks current =
      ((blocks.map gen).getLastD current, blocks.length) := by
  unfold processAndDisplay processFFTQueue drainPaths
  rw [foldl_overwrite]
  simp

/-- C7 counterexample: with two queued FFT blocks, `generatePath` runs
twice; the intermediate (older) block is not discarded unprocessed, so
"discards the intermediate blocks without processing them" fails. -/
theorem fftQueue_processesAll_counterexample :
    (processAndDisplay (fun b => b + 1) [10, 20] (0 : ℕ)).2 = 2 ∧
    ¬(processAndDisplay (fun b => b + 1) [10, 20] (0 : ℕ)).2 ≤ 1 := by
  decide

/-- C8 (amended): the `map` lambda of `paint` maps decibels linearly from
`[-24, +24]` — the configured gain range, not `[negativeInfinityDb,
maxDb]` — onto `[bounds.bottom, bounds.top]`, and 0 dB lands exactly at
the vertical center. -/
theorem responseMap_affine (bottom top : ℚ) :
    responseCurveMap bottom top (-24) = bottom ∧
    responseCurveMap bottom top 24 = top ∧
    responseCurveMap bottom top 0 = (bottom + top) / 2 ∧
    ∀ a b t : ℚ, responseCurveMap bottom top (a + t * (b - a)) =
      responseCurveMap bottom top a +
        t * (responseCurveMap bottom top b - responseCurveMap bottom top a) := by
  refine ⟨?_, ?_, ?_, ?_⟩ <;>
    (intros; unfold responseCurveMap jmap; ring)

/-- C8 counterexample: the claimed source interval `[negativeInfinityDb,
maxDb] = [-48, 24]` does not hold: `-48` dB maps to `150`, below the
bottom pixel row `100`, because the code interpolates from `-24`. -/
theorem responseMap_floor_counterexample :
    responseCurveMap 100 0 (-48) = 150 ∧ responseCurveMap 100 0 (-48) ≠ 100 := by
  constructor <;> (unfold responseCurveMap jmap; norm_num)

theorem makePeakFilter_zeroGain_numSq (sampleRate freq q θ : ℝ) :
    biquadNumSq (makePeakFilter sampleRate freq q 0) θ =
      biquadDenSq (makePeakFilter sampleRate freq q 0) θ := by
  have hA : Real.sqrt ((10 : ℝ) ^ ((0 : ℝ) / 20)) = 1 := by
    rw [zero_div, Real.rpow_zero, Real.sqrt_one]
  unfold biquadNumSq biquadDenSq makePeakFilter
  simp [hA]

/-- C9: a peak (bell) biquad designed with `gainDb = 0` has exactly unit
magnitude — hence a response within ±0.1 dB of 0 dB — at every
evaluation angle where its denominator does not vanish, for every center
frequency, sample rate and Q. -/
theorem peakFilter_zeroGain_flat (sampleRate freq q θ : ℝ)
    (hden : biquadDenSq (makePeakFilter sampleRate freq q 0) θ ≠ 0) :
    |biquadResponseDb (makePeakFilter sampleRate freq q 0) θ - 0| ≤ 0.1 := by
  unfold biquadResponseDb biquadMagSq
  rw [makePeakFilter_zeroGain_numSq, div_self hden, Real.logb_one]
  norm_num

/-- C9 witness: sample rate 4, center frequency 1, Q 1, evaluated at
`θ = π/2` where the denominator is 1. -/
theorem peakFilter_zeroGain_flat_witness :
    biquadDenSq (makePeakFilter 4 1 1 0) (Real.pi / 2) ≠ 0 ∧
    |biquadResponseDb (makePeakFilter 4 1 1 0) (Real.pi / 2) - 0| ≤ 0.1 :=
  have hden : biquadDenSq (makePeakFilter 4 1 1 0) (Real.pi / 2) ≠ 0 := by
    have h1 : 2 * Real.pi / 4 = Real.pi / 2 := by ring
    have h2 : 2 * (Real.pi / 2) = Real.pi := by ring
    norm_num [biquadDenSq, makePeakFilter, h1, h2, Real.cos_pi_div_two,
      Real.sin_pi_div_two, Real.cos_pi, Real.sin_pi, Real.rpow_zero,
      Real.sqrt_one]
  ⟨hden, peakFilter_zeroGain_flat 4 1 1 (Real.pi / 2) hden⟩

/-- C10: for a float-valued parameter, the display string is the value
divided by 1000 and printed with two decimal places, followed by
`" k" ++ suffix` when a suffix is configured, whenever the value exceeds
999; otherwise the value printed with zero decimal places, followed by
`" " ++ suffix` (no `k`) when a suffix is configured. -/
theorem displayString_correct (render : ℚ → ℕ → String) (value : ℚ)
    (suffix : String) :
    getDisplayString render value suffix = displayStringSpec render value suffix := by
  unfold getDisplayString displayStringSpec
  by_cases hv : 999 < value <;> by_cases hs : suffix.isEmpty <;>
    simp [hv, hs, String.append_empty]

end SimpleEQ
